import Mathlib

/-!
Shallow embedding of the soundbits audio feature-extraction pipeline
(`src/extractor/file_feature_extractor.py`, class `Song`, and
`src/extractor/torch_audio_extractor.py`, class `SongTorchaudio`).

Numeric signal values are modelled as rationals (exact arithmetic standing in
for the floating-point arrays of numpy/torch).  The third-party DSP routines
that the repository calls but does not define (librosa beat tracking, onset
detection, HPSS, mel spectrogram, MFCC, chroma, the numeric square root, the
floating-point mel-frequency table, librosa's recurrence matrix) enter the
embedding as explicit parameters collected in `LibRoutines`; everything the
repository's own code does with their outputs — band-energy slicing, feature
stacking, the pdist/squareform/affinity arithmetic, agglomerative clustering
glue, boundary derivation via np.diff/np.where, frames-to-time conversion and
the aggregated feature vector — is embedded directly from the source.
-/

namespace Soundbits

/-- np.mean of a 1-D array.  In ℚ the empty mean is 0 (0 / 0 = 0). -/
def npMean (xs : List ℚ) : ℚ := xs.sum / xs.length

/-- The radicand of np.std: the mean of squared deviations from the mean. -/
def npVar (xs : List ℚ) : ℚ := npMean (xs.map (fun x => (x - npMean xs) ^ 2))

/-- np.std, with the numeric square-root routine `sq` passed explicitly
(np.sqrt is a floating-point primitive external to the repository). -/
def npStd (sq : ℚ → ℚ) (xs : List ℚ) : ℚ := sq (npVar xs)

/-- The aggregated feature vector, exactly as assembled at
file_feature_extractor.py lines 82–91 and torch_audio_extractor.py
lines 122–131: np.array([tempo, rms, mean(bass), mean(mid), mean(treble),
std(bass), std(mid), std(treble)]). -/
def mkFeatureVector (sq : ℚ → ℚ) (tempo rms : ℚ) (bass mid treble : List ℚ) : List ℚ :=
  [tempo, rms, npMean bass, npMean mid, npMean treble,
   npStd sq bass, npStd sq mid, npStd sq treble]

/-- np.diff on the integer label sequence (label[i+1] - label[i]). -/
def npDiff : List ℕ → List ℤ
  | [] => []
  | [_] => []
  | a :: b :: t => ((b : ℤ) - (a : ℤ)) :: npDiff (b :: t)

/-- np.where(xs)[0]: the (increasing) indices of the nonzero entries. -/
def npWhere (xs : List ℤ) : List ℕ :=
  (List.range xs.length).filter (fun i => xs.getD i 0 != 0)

/-- boundaries = np.where(np.diff(segment_labels))[0]
(file_feature_extractor.py line 77, torch_audio_extractor.py line 116). -/
def segBoundaryFrames (labels : List ℕ) : List ℕ := npWhere (npDiff labels)

/-- Number of maximal constant runs of a label sequence — the number of
structural segments the label sequence describes. -/
def countRuns : List ℕ → ℕ
  | [] => 0
  | [_] => 1
  | a :: b :: t => (if a = b then 0 else 1) + countRuns (b :: t)

/-- librosa.frames_to_time: frame index × hop length / sample rate (seconds). -/
def framesToTime (hop : ℕ) (sr : ℚ) (frames : List ℕ) : List ℚ :=
  frames.map (fun (f : ℕ) => (f : ℚ) * (hop : ℚ) / sr)

/-- np.abs on a rational value. -/
def absQ (q : ℚ) : ℚ := if q < 0 then -q else q

/-- np.argmin(np.abs(freqs - target)): the FIRST index minimizing the absolute
distance to the target frequency (np.argmin returns the first minimum). -/
def argminAbs (freqs : List ℚ) (target : ℚ) : ℕ :=
  (List.range freqs.length).foldl
    (fun best i =>
      if absQ (freqs.getD i 0 - target) < absQ (freqs.getD best 0 - target) then i else best) 0

/-- Number of time frames (columns) of a row-major spectrogram matrix. -/
def nCols (m : List (List ℚ)) : ℕ := (m.headD []).length

/-- np.sum(melspec[s : e + 1, :], axis=0): column-wise sum over the INCLUSIVE
row range s..e.  For s > e the slice is empty and numpy's empty sum along
axis 0 is the all-zero row of full frame count — no exception is raised. -/
def bandEnergySum (melspec : List (List ℚ)) (s e : ℕ) : List ℚ :=
  ((melspec.drop s).take (e + 1 - s)).foldl
    (fun acc r => acc.zipWith (· + ·) r) (List.replicate (nCols melspec) 0)

/-- Song._get_spectral_band_energy / SongTorchaudio._get_spectral_band_energy:
map both Hz edges to the nearest mel-bin index with np.argmin, then sum the
inclusive bin range for every time frame (file_feature_extractor.py
lines 93–103, torch_audio_extractor.py lines 133–145). -/
def getSpectralBandEnergy (freqs : List ℚ) (melspec : List (List ℚ)) (lo hi : ℚ) : List ℚ :=
  bandEnergySum melspec (argminAbs freqs lo) (argminAbs freqs hi)

/-- Errors surfaced by the library calls the pipeline makes: sklearn's
AgglomerativeClustering raises ValueError (message: cannot extract more
clusters than samples) when n_clusters exceeds n_samples, and np.vstack
raises ValueError when the stacked rows have mismatched column counts. -/
inductive PyErr where
  | cannotExtractMoreClustersThanSamples
  | vstackShapeMismatch
deriving DecidableEq

/-- Decidable equality of Except results, so that pipeline runs on concrete
inputs can be evaluated. -/
instance {ε α : Type} [DecidableEq ε] [DecidableEq α] : DecidableEq (Except ε α) := fun a b =>
  match a, b with
  | .error e, .error f =>
    if h : e = f then isTrue (congrArg Except.error h)
    else isFalse (fun hh => h (Except.error.inj hh))
  | .ok u, .ok v =>
    if h : u = v then isTrue (congrArg Except.ok h)
    else isFalse (fun hh => h (Except.ok.inj hh))
  | .error _, .ok _ => isFalse (fun hh => Except.noConfusion hh)
  | .ok _, .error _ => isFalse (fun hh => Except.noConfusion hh)

/-- A cluster during agglomeration: its size, centroid and member indices. -/
structure WCluster where
  size : ℚ
  centroid : List ℚ
  members : List ℕ
deriving DecidableEq

/-- Squared Euclidean distance of two coordinate lists. -/
def sqDist (p q : List ℚ) : ℚ := ((p.zipWith (fun a b => (a - b) ^ 2) q)).sum

/-- Ward linkage cost of merging two clusters, in squared-distance form
(the Lance–Williams ward objective increase, a strictly monotone transform
of the library's ward distance, so argmin choices and ties agree). -/
def wardCost (c d : WCluster) : ℚ :=
  c.size * d.size / (c.size + d.size) * sqDist c.centroid d.centroid

/-- Merge two clusters: sizes add, the centroid is the size-weighted mean,
member lists concatenate. -/
def mergeWC (c d : WCluster) : WCluster :=
  { size := c.size + d.size
  , centroid := (c.centroid.map (fun v => c.size * v)).zipWith
      (fun a b => (a + b) / (c.size + d.size)) (d.centroid.map (fun v => d.size * v))
  , members := c.members ++ d.members }

/-- All index pairs i < j below n, in lexicographic order. -/
def allPairs (n : ℕ) : List (ℕ × ℕ) :=
  (List.range n).flatMap (fun i => ((List.range n).filter (fun j => i < j)).map (fun j => (i, j)))

/-- First strict minimum of `cost` over a list: the earliest element attaining
the minimal cost (ties between equal costs resolve to the lowest index). -/
def firstMinBy {α : Type} (cost : α → ℚ) : List α → Option α
  | [] => none
  | x :: xs =>
    match firstMinBy cost xs with
    | none => some x
    | some y => if cost y < cost x then some y else some x

/-- Ward cost of the pair of clusters at positions p.1 and p.2. -/
def pairCost (cs : List WCluster) (p : ℕ × ℕ) : ℚ :=
  wardCost (cs.getD p.1 ⟨0, [], []⟩) (cs.getD p.2 ⟨0, [], []⟩)

/-- The pair of cluster positions merged next: the lexicographically first
pair of minimal ward cost. -/
def selectMergePair (cs : List WCluster) : Option (ℕ × ℕ) :=
  firstMinBy (pairCost cs) (allPairs cs.length)

/-- One agglomeration step: merge the selected pair (into the lower position,
removing the higher one). -/
def mergeStep (cs : List WCluster) : List WCluster :=
  match selectMergePair cs with
  | none => cs
  | some (i, j) =>
    (cs.set i (mergeWC (cs.getD i ⟨0, [], []⟩) (cs.getD j ⟨0, [], []⟩))).eraseIdx j

/-- Iterate `mergeStep` a fixed number of times. -/
def mergeSteps : ℕ → List WCluster → List WCluster
  | 0, cs => cs
  | n + 1, cs => mergeSteps n (mergeStep cs)

/-- The cluster label of sample i: the position of the cluster containing it. -/
def labelOf (cs : List WCluster) (i : ℕ) : ℕ := cs.findIdx (fun c => c.members.contains i)

/-- Model of sklearn AgglomerativeClustering(n_clusters=k, linkage='ward')
.fit_predict(x): guard — raise when more clusters than samples are requested
(sklearn raises ValueError in _hc_cut) — then deterministic greedy ward
agglomeration down to k clusters and one integer label per row of x. -/
def fitPredict (k : ℕ) (x : List (List ℚ)) : Except PyErr (List ℕ) :=
  if x.length < k then .error .cannotExtractMoreClustersThanSamples
  else
    let final := mergeSteps (x.length - k)
      (List.zipWith (fun i row => (⟨1, row, [i]⟩ : WCluster)) (List.range x.length) x)
    .ok ((List.range x.length).map (labelOf final))

/-- scipy squareform(pdist(pts)): the full symmetric matrix of pairwise
Euclidean distances, with the numeric square root passed in as `sq`. -/
def distMatrix (sq : ℚ → ℚ) (pts : List (List ℚ)) : List (List ℚ) :=
  pts.map (fun p => pts.map (fun q => sq (sqDist p q)))

/-- np.max over all entries of a matrix (entries here are distances, so the
diagonal zeros make 0 a valid fold seed). -/
def matMax (m : List (List ℚ)) : ℚ := (m.map (fun r => r.foldl max 0)).foldl max 0

/-- R_affinity = 1 - R_sq / np.max(R_sq) (torch_audio_extractor.py line 106). -/
def affinityTorch (sq : ℚ → ℚ) (pts : List (List ℚ)) : List (List ℚ) :=
  (distMatrix sq pts).map (List.map (fun d => 1 - d / matMax (distMatrix sq pts)))

/-- The matrix actually passed to fit_predict: 1 - R_affinity
(torch_audio_extractor.py line 111). -/
def clusterInputTorch (sq : ℚ → ℚ) (pts : List (List ℚ)) : List (List ℚ) :=
  (affinityTorch sq pts).map (List.map (fun a => 1 - a))

/-- np.vstack([a, b]): stacks the rows; raises ValueError (here: none) when
the two blocks have different column counts. -/
def vstackStrict (a b : List (List ℚ)) : Option (List (List ℚ)) :=
  if nCols a = nCols b then some (a ++ b) else none

/-- The torch pipeline's stacking (torch_audio_extractor.py lines 100–102):
min_frames = min of the two frame counts; both matrices are truncated to it
and then stacked. -/
def stackTruncated (a b : List (List ℚ)) : List (List ℚ) :=
  a.map (List.take (min (nCols a) (nCols b))) ++ b.map (List.take (min (nCols a) (nCols b)))

/-- The columns of a row-major matrix, as the list of frame descriptor
vectors (stacked_features.T, the rows fed to pdist). -/
def matColumns (m : List (List ℚ)) : List (List ℚ) :=
  (List.range (nCols m)).map (fun j => m.map (fun r => r.getD j 0))

/-- The structured result of one analysis run: the attributes the Song /
SongTorchaudio constructors store. -/
structure SongFeatures where
  duration : ℚ
  rmsEnergy : ℚ
  tempo : ℚ
  beats : List ℚ
  onsets : List ℚ
  harmonic : List ℚ
  percussive : List ℚ
  bassEnergy : List ℚ
  midEnergy : List ℚ
  trebleEnergy : List ℚ
  segmentLabels : List ℕ
  segmentBoundaries : List ℚ
  featureVector : List ℚ
deriving DecidableEq

/-- The third-party numeric routines the pipeline calls (librosa / torchaudio
/ numpy internals, external to the repository), as explicit data:
`sq` is np.sqrt; `beatTrack` returns librosa.beat.beat_track's tempo
estimate(s) and beat frames; `onsetDetect` returns onset times
(units='time'); `hpss` the harmonic/percussive split; `rmsTrace` the
per-frame RMS trace; `melspec`, `mfcc`, `chromaCqt` the spectrogram-shaped
matrices [coefficient][frame]; `melFreqs n` the floating-point mel-bin
center frequency table librosa.mel_frequencies(n_mels=n, fmin=0, fmax=sr/2);
`recurrenceAffinity` is librosa.segment.recurrence_matrix(mode='affinity',
sym=True, width=5). -/
structure LibRoutines where
  sq : ℚ → ℚ
  beatTrack : List ℚ → List ℚ × List ℕ
  onsetDetect : List ℚ → List ℚ
  hpss : List ℚ → List ℚ × List ℚ
  rmsTrace : List ℚ → List ℚ
  melspec : List ℚ → List (List ℚ)
  mfcc : List ℚ → List (List ℚ)
  chromaCqt : List ℚ → List (List ℚ)
  melFreqs : ℕ → List ℚ
  recurrenceAffinity : List (List ℚ) → List (List ℚ)

/-- The fixed sample rate of the file-based extractor:
librosa.load(file_path, sr=22050) at file_feature_extractor.py line 25
resamples every input to 22050 Hz. -/
def fileSampleRate : ℚ := 22050

/-- librosa's default hop length, used by frames_to_time and all frame-based
features in the file pipeline, and passed explicitly in the torch pipeline. -/
def defaultHop : ℕ := 512

/-- The stacked MFCC+chroma matrix of the torch pipeline. -/
def torchStacked (lib : LibRoutines) (y : List ℚ) : List (List ℚ) :=
  stackTruncated (lib.mfcc y) (lib.chromaCqt y)

/-- The frame descriptor vectors fed to pdist in the torch pipeline. -/
def torchPoints (lib : LibRoutines) (y : List ℚ) : List (List ℚ) :=
  matColumns (torchStacked lib y)

/-- The SongTorchaudio attributes assembled after clustering produced the
segment labels (torch_audio_extractor.py, SongTorchaudio._extract_features). -/
def torchRecord (lib : LibRoutines) (hop : ℕ) (sr : ℚ) (nMels : ℕ) (y : List ℚ)
    (labels : List ℕ) : SongFeatures :=
  { duration := (y.length : ℚ) / sr
  , rmsEnergy := npMean (lib.rmsTrace y)
  , tempo := npMean (lib.beatTrack y).1
  , beats := framesToTime hop sr (lib.beatTrack y).2
  , onsets := lib.onsetDetect y
  , harmonic := (lib.hpss y).1
  , percussive := (lib.hpss y).2
  , bassEnergy := getSpectralBandEnergy (lib.melFreqs nMels) (lib.melspec y) 20 250
  , midEnergy := getSpectralBandEnergy (lib.melFreqs nMels) (lib.melspec y) 250 4000
  , trebleEnergy := getSpectralBandEnergy (lib.melFreqs nMels) (lib.melspec y) 4000 20000
  , segmentLabels := labels
  , segmentBoundaries := framesToTime hop sr (segBoundaryFrames labels)
  , featureVector := mkFeatureVector lib.sq
      (npMean (lib.beatTrack y).1) (npMean (lib.rmsTrace y))
      (getSpectralBandEnergy (lib.melFreqs nMels) (lib.melspec y) 20 250)
      (getSpectralBandEnergy (lib.melFreqs nMels) (lib.melspec y) 250 4000)
      (getSpectralBandEnergy (lib.melFreqs nMels) (lib.melspec y) 4000 20000) }

/-- SongTorchaudio._extract_features: truncate-and-stack MFCC+chroma, build
pairwise Euclidean distances, normalize to an affinity, invert back to a
distance, cluster with ward AgglomerativeClustering(n_clusters=8), then store
every derived attribute. -/
def extractFeaturesTorch (lib : LibRoutines) (hop : ℕ) (sr : ℚ) (nMels : ℕ)
    (y : List ℚ) : Except PyErr SongFeatures :=
  (fitPredict 8 (clusterInputTorch lib.sq (torchPoints lib y))).map
    (torchRecord lib hop sr nMels y)

/-- The Song attributes assembled after clustering produced the segment
labels (file_feature_extractor.py, Song._extract_features); the file pipeline
always runs at sample rate 22050 and librosa's default hop 512, and takes the
mel table size from melspec.shape[0]. -/
def fileRecord (lib : LibRoutines) (y : List ℚ) (labels : List ℕ) : SongFeatures :=
  { duration := (y.length : ℚ) / fileSampleRate
  , rmsEnergy := npMean (lib.rmsTrace y)
  , tempo := npMean (lib.beatTrack y).1
  , beats := framesToTime defaultHop fileSampleRate (lib.beatTrack y).2
  , onsets := lib.onsetDetect y
  , harmonic := (lib.hpss y).1
  , percussive := (lib.hpss y).2
  , bassEnergy := getSpectralBandEnergy (lib.melFreqs (lib.melspec y).length) (lib.melspec y) 20 250
  , midEnergy := getSpectralBandEnergy (lib.melFreqs (lib.melspec y).length) (lib.melspec y) 250 4000
  , trebleEnergy := getSpectralBandEnergy (lib.melFreqs (lib.melspec y).length) (lib.melspec y) 4000 20000
  , segmentLabels := labels
  , segmentBoundaries := framesToTime defaultHop fileSampleRate (segBoundaryFrames labels)
  , featureVector := mkFeatureVector lib.sq
      (npMean (lib.beatTrack y).1) (npMean (lib.rmsTrace y))
      (getSpectralBandEnergy (lib.melFreqs (lib.melspec y).length) (lib.melspec y) 20 250)
      (getSpectralBandEnergy (lib.melFreqs (lib.melspec y).length) (lib.melspec y) 250 4000)
      (getSpectralBandEnergy (lib.melFreqs (lib.melspec y).length) (lib.melspec y) 4000 20000) }

/-- Song._extract_features: np.vstack([mfccs, chroma]) with NO truncation
(ValueError on mismatched frame counts), recurrence matrix R, clustering on
1 - R with ward AgglomerativeClustering(n_clusters=8), then every derived
attribute. -/
def extractFeaturesFile (lib : LibRoutines) (y : List ℚ) : Except PyErr SongFeatures :=
  match vstackStrict (lib.mfcc y) (lib.chromaCqt y) with
  | none => .error .vstackShapeMismatch
  | some stacked =>
    (fitPredict 8 ((lib.recurrenceAffinity stacked).map (List.map (fun v => 1 - v)))).map
      (fileRecord lib y)

/-- A small concrete instantiation of the library routines, used to evaluate
the pipeline on explicit inputs. -/
def testLib : LibRoutines :=
  { sq := fun q => q
  , beatTrack := fun _ => ([], [])
  , onsetDetect := fun _ => []
  , hpss := fun y => (y, y)
  , rmsTrace := fun _ => []
  , melspec := fun _ => [[1, 1]]
  , mfcc := fun _ => [[1, 2]]
  , chromaCqt := fun _ => [[3, 4]]
  , melFreqs := fun _ => [0, 100, 300]
  , recurrenceAffinity := fun m => m }

/-- Like `testLib` but with MFCC and chroma matrices of different frame
counts (2 vs 3 frames). -/
def mismatchLib : LibRoutines :=
  { testLib with chromaCqt := fun _ => [[3, 4, 5]] }

/-- The slope of librosa's Slaney mel scale below 1000 Hz: 200 / 3 mel per Hz
is the reciprocal, i.e. mel = f / (200 / 3). -/
noncomputable def melLogStep : ℝ := Real.log 6.4 / 27

open Classical in
/-- librosa.hz_to_mel (Slaney, htk=False): linear below 1000 Hz, logarithmic
above, with min_log_mel = 15 and logstep = log(6.4) / 27. -/
noncomputable def hzToMel (f : ℝ) : ℝ :=
  if 1000 ≤ f then 15 + Real.log (f / 1000) / melLogStep else f / (200 / 3)

open Classical in
/-- librosa.mel_to_hz (Slaney, htk=False), the inverse map. -/
noncomputable def melToHz (m : ℝ) : ℝ :=
  if 15 ≤ m then 1000 * Real.exp (melLogStep * (m - 15)) else (200 / 3) * m

/-- np.linspace(lo, hi, n) (endpoint included): lo + (hi - lo) * i / (n - 1). -/
noncomputable def linspace (lo hi : ℝ) (n : ℕ) : List ℝ :=
  (List.range n).map (fun (i : ℕ) => lo + (hi - lo) * (i : ℝ) / ((n : ℝ) - 1))

/-- librosa.mel_frequencies(n_mels, fmin, fmax): mel_to_hz of n_mels points
evenly spaced between hz_to_mel(fmin) and hz_to_mel(fmax). -/
noncomputable def melFrequencies (n : ℕ) (fmin fmax : ℝ) : List ℝ :=
  (linspace (hzToMel fmin) (hzToMel fmax) n).map melToHz

/-! Helper lemmas. -/

theorem firstMinBy_eq_none {α : Type} (cost : α → ℚ) (l : List α) :
    firstMinBy cost l = none ↔ l = [] := by
  cases l with
  | nil => simp [firstMinBy]
  | cons x xs =>
    cases h : firstMinBy cost xs with
    | none => simp [firstMinBy, h]
    | some y => by_cases hc : cost y < cost x <;> simp [firstMinBy, h, hc]

theorem firstMinBy_isFirstMin {α : Type} (cost : α → ℚ) :
    ∀ (l : List α) (x : α), firstMinBy cost l = some x →
      x ∈ l ∧ (∀ y ∈ l, cost x ≤ cost y) ∧
      ∃ l1 l2, l = l1 ++ x :: l2 ∧ ∀ y ∈ l1, cost x < cost y
  | [], x => by intro h; simp [firstMinBy] at h
  | a :: t, x => by
    intro hx
    simp only [firstMinBy] at hx
    cases h : firstMinBy cost t with
    | none =>
      simp only [h] at hx
      injection hx with h2
      subst h2
      have ht : t = [] := (firstMinBy_eq_none cost t).mp h
      subst ht
      refine ⟨by simp, ?_, [], [], by simp, by simp⟩
      intro y hy
      rcases List.mem_singleton.mp hy with rfl
      exact le_refl _
    | some b =>
      simp only [h] at hx
      by_cases hc : cost b < cost a
      · rw [if_pos hc] at hx
        injection hx with h2
        subst h2
        obtain ⟨hmem, hmin, l1, l2, hdec, hpre⟩ := firstMinBy_isFirstMin cost t b h
        refine ⟨List.mem_cons_of_mem a hmem, ?_, a :: l1, l2, by simp [hdec], ?_⟩
        · intro y hy
          rcases List.mem_cons.mp hy with rfl | hy'
          · exact le_of_lt hc
          · exact hmin y hy'
        · intro y hy
          rcases List.mem_cons.mp hy with rfl | hy'
          · exact hc
          · exact hpre y hy'
      · rw [if_neg hc] at hx
        injection hx with h2
        subst h2
        obtain ⟨hmem, hmin, _⟩ := firstMinBy_isFirstMin cost t b h
        refine ⟨List.mem_cons_self a t, ?_, [], t, rfl, by simp⟩
        intro y hy
        rcases List.mem_cons.mp hy with rfl | hy'
        · exact le_refl _
        · exact le_trans (not_lt.mp hc) (hmin y hy')

/-! Claim theorems. -/

/-- C1: for every analysed waveform (any library routines, hop, sample rate,
mel-band count), the aggregated feature vector stored by both pipelines has
exactly 8 elements, in the fixed order [tempo, mean RMS energy, mean bass,
mean mid, mean treble, std bass, std mid, std treble]. -/
theorem c1_feature_vector_shape (lib : LibRoutines) (hop : ℕ) (sr : ℚ) (nMels : ℕ)
    (y : List ℚ) :
    (extractFeaturesTorch lib hop sr nMels y).map
        (fun f => (f.featureVector.length, f.featureVector)) =
      (extractFeaturesTorch lib hop sr nMels y).map
        (fun f => (8, [f.tempo, f.rmsEnergy, npMean f.bassEnergy, npMean f.midEnergy,
          npMean f.trebleEnergy, npStd lib.sq f.bassEnergy, npStd lib.sq f.midEnergy,
          npStd lib.sq f.trebleEnergy])) ∧
    (extractFeaturesFile lib y).map
        (fun f => (f.featureVector.length, f.featureVector)) =
      (extractFeaturesFile lib y).map
        (fun f => (8, [f.tempo, f.rmsEnergy, npMean f.bassEnergy, npMean f.midEnergy,
          npMean f.trebleEnergy, npStd lib.sq f.bassEnergy, npStd lib.sq f.midEnergy,
          npStd lib.sq f.trebleEnergy])) := by
  constructor
  · unfold extractFeaturesTorch
    cases fitPredict 8 (clusterInputTorch lib.sq (torchPoints lib y)) <;> rfl
  · unfold extractFeaturesFile
    cases vstackStrict (lib.mfcc y) (lib.chromaCqt y) with
    | none => rfl
    | some stacked =>
      dsimp only
      cases fitPredict 8 ((lib.recurrenceAffinity stacked).map (List.map (fun v => 1 - v))) <;>
        rfl

/-- C2: running either pipeline twice on the same waveform and configuration
yields identical outputs — the embedding of the whole pipeline, clustering
stage included, is a pure function with no source of nondeterminism — and the
clustering's merge selection resolves ties deterministically: whenever
firstMinBy (the selector used by selectMergePair over the lexicographically
ordered pair list) returns p, p attains the minimal linkage cost and every
candidate listed before p has strictly larger cost, so equal-cost ties
resolve to the first (lowest-index) pair. -/
theorem c2_pipeline_deterministic :
    (∀ (lib : LibRoutines) (hop : ℕ) (sr : ℚ) (nMels : ℕ) (y : List ℚ),
      extractFeaturesTorch lib hop sr nMels y = extractFeaturesTorch lib hop sr nMels y ∧
      extractFeaturesFile lib y = extractFeaturesFile lib y) ∧
    (∀ (cost : ℕ × ℕ → ℚ) (l : List (ℕ × ℕ)) (p : ℕ × ℕ), firstMinBy cost l = some p →
      p ∈ l ∧ (∀ q ∈ l, cost p ≤ cost q) ∧
      ∃ l1 l2, l = l1 ++ p :: l2 ∧ ∀ q ∈ l1, cost p < cost q) :=
  ⟨fun _ _ _ _ _ => ⟨rfl, rfl⟩, fun cost l p h => firstMinBy_isFirstMin cost l p h⟩

/-- Witness for C2 at a concrete tie-free instance: on the pair list
[(0, 1), (0, 2)] with cost = second component, the selector picks (0, 1). -/
theorem c2_pipeline_deterministic_witness :
    (0, 1) ∈ [((0 : ℕ), (1 : ℕ)), (0, 2)] ∧
    (∀ q ∈ [((0 : ℕ), (1 : ℕ)), (0, 2)],
      (fun v : ℕ × ℕ => (v.2 : ℚ)) (0, 1) ≤ (fun v : ℕ × ℕ => (v.2 : ℚ)) q) ∧
    ∃ l1 l2, [((0 : ℕ), (1 : ℕ)), (0, 2)] = l1 ++ (0, 1) :: l2 ∧
      ∀ q ∈ l1, (fun v : ℕ × ℕ => (v.2 : ℚ)) (0, 1) < (fun v : ℕ × ℕ => (v.2 : ℚ)) q :=
  c2_pipeline_deterministic.2 (fun v => (v.2 : ℚ)) [(0, 1), (0, 2)] (0, 1) (by decide)

/-- C4 (amended): for adjacent contiguous bands (a, b) and (b, c), the two
inclusive mel-bin ranges are [argmin |freqs - a|, argmin |freqs - b|] and
[argmin |freqs - b|, argmin |freqs - c|].  Since both slices are inclusive
and both edges at the shared frequency b map through the same argmin, the
bands always share exactly the boundary bin argmin |freqs - b| — and no
other bin contributes to both — provided neither mapped range is inverted. -/
theorem c4_adjacent_bands_share_boundary_bin (freqs : List ℚ) (a b c : ℚ)
    (h1 : argminAbs freqs a ≤ argminAbs freqs b)
    (h2 : argminAbs freqs b ≤ argminAbs freqs c) :
    ∀ j : ℕ,
      ((argminAbs freqs a ≤ j ∧ j ≤ argminAbs freqs b) ∧
       (argminAbs freqs b ≤ j ∧ j ≤ argminAbs freqs c)) ↔ j = argminAbs freqs b := by
  intro j
  omega

/-- Witness for C4's amended theorem at the concrete table [0, 100, 300, 5000]
with the default adjacent bands 20–250 and 250–4000 Hz, at bin j = 2. -/
theorem c4_adjacent_bands_share_boundary_bin_witness :
    ((argminAbs [0, 100, 300, 5000] 20 ≤ 2 ∧ 2 ≤ argminAbs [0, 100, 300, 5000] 250) ∧
     (argminAbs [0, 100, 300, 5000] 250 ≤ 2 ∧ 2 ≤ argminAbs [0, 100, 300, 5000] 4000)) ↔
      2 = argminAbs [0, 100, 300, 5000] 250 :=
  c4_adjacent_bands_share_boundary_bin [0, 100, 300, 5000] 20 250 4000
    (by norm_num [argminAbs, absQ, List.range_succ])
    (by norm_num [argminAbs, absQ, List.range_succ]) 2

/-- C4 counterexample: with the monotone center-frequency table
[0, 100, 300, 5000] and the adjacent default bands 20–250 Hz and 250–4000 Hz,
both bands' edges at 250 Hz map to the same bin (argmin = 2), and the
inclusive slices melspec[0:3] and melspec[2:4] both contain bin 2: on a
spectrogram of four unit-power bins the band energies are 3 and 2, summing to
5 out of a total power of 4 — bin 2's power is counted in BOTH adjacent
bands.  The identity end-bin(20–250) = argmin |freqs - 250| = start-bin
(250–4000) is independent of the table, so the same double-count occurs with
the real 128-entry mel table. -/
theorem c4_adjacent_bands_counterexample :
    argminAbs [0, 100, 300, 5000] 250 = 2 ∧
    (argminAbs [0, 100, 300, 5000] 20 ≤ 2 ∧ 2 ≤ argminAbs [0, 100, 300, 5000] 250) ∧
    (argminAbs [0, 100, 300, 5000] 250 ≤ 2 ∧ 2 ≤ argminAbs [0, 100, 300, 5000] 4000) ∧
    getSpectralBandEnergy [0, 100, 300, 5000] [[1], [1], [1], [1]] 20 250 = [3] ∧
    getSpectralBandEnergy [0, 100, 300, 5000] [[1], [1], [1], [1]] 250 4000 = [2] := by
  norm_num [getSpectralBandEnergy, bandEnergySum, argminAbs, absQ, nCols, List.range_succ]

/-- C5 (amended): when a configured band's mapped mel-bin range is inverted
(start bin > end bin after Hz-to-bin mapping), the band-energy extraction
raises nothing and silently returns the all-zero energy trace of full frame
count: the numpy slice melspec[start : end + 1] is empty and its axis-0 sum
is zeros.  The repository contains no InvalidConfig or any validation. -/
theorem c5_inverted_band_silent_zeros (freqs : List ℚ) (melspec : List (List ℚ)) (lo hi : ℚ)
    (h : argminAbs freqs hi < argminAbs freqs lo) :
    getSpectralBandEnergy freqs melspec lo hi = List.replicate (nCols melspec) 0 ∧
    (getSpectralBandEnergy freqs melspec lo hi).length = nCols melspec := by
  have h0 : argminAbs freqs hi + 1 - argminAbs freqs lo = 0 := by omega
  have hz : getSpectralBandEnergy freqs melspec lo hi = List.replicate (nCols melspec) 0 := by
    unfold getSpectralBandEnergy bandEnergySum
    rw [h0]
    rfl
  exact ⟨hz, by rw [hz]; simp⟩

/-- Witness for C5's amended theorem: the band 300 Hz down to 20 Hz maps to
the inverted bin range 2..0 on the table [0, 100, 300]. -/
theorem c5_inverted_band_silent_zeros_witness :
    getSpectralBandEnergy [0, 100, 300] [[5], [7], [9]] 300 20 =
      List.replicate (nCols [[(5 : ℚ)], [7], [9]]) 0 ∧
    (getSpectralBandEnergy [0, 100, 300] [[5], [7], [9]] 300 20).length =
      nCols [[(5 : ℚ)], [7], [9]] :=
  c5_inverted_band_silent_zeros [0, 100, 300] [[5], [7], [9]] 300 20
    (by norm_num [argminAbs, absQ, List.range_succ])

/-- C5 counterexample: an inverted configured band (300 Hz down to 20 Hz,
mapping to start bin 2 > end bin 0) does NOT fail: _get_spectral_band_energy
is a total function and returns the all-zero trace — there is no InvalidConfig
(or any other raised error) anywhere in the band-energy code. -/
theorem c5_inverted_band_counterexample :
    argminAbs [0, 100, 300] 20 < argminAbs [0, 100, 300] 300 ∧
    getSpectralBandEnergy [0, 100, 300] [[5], [7], [9]] 300 20 = [0] := by
  norm_num [getSpectralBandEnergy, bandEnergySum, argminAbs, absQ, nCols, List.range_succ]

/-- C6: when the clustering stage receives fewer frames (rows) than the
configured cluster count K, fit_predict fails with the library's error
(sklearn's ValueError: cannot extract more clusters than samples) and never
returns degenerate or duplicate labels; in particular the torch pipeline
errors whenever the stacked MFCC+chroma matrix has fewer than 8 frames. -/
theorem c6_insufficient_frames :
    (∀ (k : ℕ) (x : List (List ℚ)), x.length < k →
      fitPredict k x = .error .cannotExtractMoreClustersThanSamples ∧
      ∀ ls : List ℕ, fitPredict k x ≠ .ok ls) ∧
    (∀ (lib : LibRoutines) (hop : ℕ) (sr : ℚ) (nMels : ℕ) (y : List ℚ),
      (torchPoints lib y).length < 8 →
      extractFeaturesTorch lib hop sr nMels y =
        .error .cannotExtractMoreClustersThanSamples) := by
  have base : ∀ (k : ℕ) (x : List (List ℚ)), x.length < k →
      fitPredict k x = .error .cannotExtractMoreClustersThanSamples := by
    intro k x h
    unfold fitPredict
    rw [if_pos h]
  refine ⟨fun k x h => ⟨base k x h, fun ls hls => ?_⟩, fun lib hop sr nMels y h => ?_⟩
  · rw [base k x h] at hls
    exact Except.noConfusion hls
  · have hlen : (clusterInputTorch lib.sq (torchPoints lib y)).length < 8 := by
      simpa [clusterInputTorch, affinityTorch, distMatrix] using h
    unfold extractFeaturesTorch
    rw [base 8 _ hlen]
    rfl

/-- Witness for C6: two 1-dimensional samples with K = 8 error out of
fit_predict, and the torch pipeline on testLib (2 stacked frames) errors. -/
theorem c6_insufficient_frames_witness :
    (fitPredict 8 [[(0 : ℚ)], [1]] = .error .cannotExtractMoreClustersThanSamples ∧
      ∀ ls : List ℕ, fitPredict 8 [[(0 : ℚ)], [1]] ≠ .ok ls) ∧
    extractFeaturesTorch testLib 512 22050 128 [] =
      .error .cannotExtractMoreClustersThanSamples :=
  ⟨c6_insufficient_frames.1 8 [[0], [1]] (by decide),
   c6_insufficient_frames.2 testLib 512 22050 128 [] (by decide)⟩

/-- C8 (amended): the TORCH pipeline truncates both the MFCC and the chroma
matrix to the minimum of the two frame counts before stacking, so for every
pair of frame counts the stacked matrix is well-formed (every row has exactly
min frame count columns, and all rows of both matrices are kept); the FILE
pipeline instead stacks with np.vstack directly, which succeeds exactly when
the two frame counts already agree and raises otherwise. -/
theorem c8_stack_truncation (a b : List (List ℚ))
    (ha : ∀ r ∈ a, r.length = nCols a) (hb : ∀ r ∈ b, r.length = nCols b) :
    (∀ r ∈ stackTruncated a b, r.length = min (nCols a) (nCols b)) ∧
    (stackTruncated a b).length = a.length + b.length ∧
    (nCols a = nCols b → vstackStrict a b = some (a ++ b)) ∧
    (nCols a ≠ nCols b → vstackStrict a b = none) := by
  refine ⟨?_, ?_, ?_, ?_⟩
  · intro r hr
    unfold stackTruncated at hr
    rcases List.mem_append.mp hr with h | h
    · obtain ⟨r0, hr0, rfl⟩ := List.mem_map.mp h
      rw [List.length_take, ha r0 hr0]
      omega
    · obtain ⟨r0, hr0, rfl⟩ := List.mem_map.mp h
      rw [List.length_take, hb r0 hr0]
      omega
  · simp [stackTruncated]
  · intro h
    simp [vstackStrict, h]
  · intro h
    simp [vstackStrict, h]

/-- Witness for C8's amended theorem on a 1×2 MFCC block and a 1×3 chroma
block: truncation to 2 frames in the torch stacking, vstack failure in the
file stacking. -/
theorem c8_stack_truncation_witness :
    (∀ r ∈ stackTruncated [[(1 : ℚ), 2]] [[3, 4, 5]],
      r.length = min (nCols [[(1 : ℚ), 2]]) (nCols [[(3 : ℚ), 4, 5]])) ∧
    (stackTruncated [[(1 : ℚ), 2]] [[3, 4, 5]]).length =
      [[(1 : ℚ), 2]].length + [[(3 : ℚ), 4, 5]].length ∧
    (nCols [[(1 : ℚ), 2]] = nCols [[(3 : ℚ), 4, 5]] →
      vstackStrict [[(1 : ℚ), 2]] [[3, 4, 5]] = some ([[(1 : ℚ), 2]] ++ [[3, 4, 5]])) ∧
    (nCols [[(1 : ℚ), 2]] ≠ nCols [[(3 : ℚ), 4, 5]] →
      vstackStrict [[(1 : ℚ), 2]] [[3, 4, 5]] = none) :=
  c8_stack_truncation [[1, 2]] [[3, 4, 5]] (by decide) (by decide)

/-- C8 counterexample: the FILE pipeline does not truncate before combining:
np.vstack on a 2-frame MFCC matrix and a 3-frame chroma matrix raises
(modelled: the stacking returns none and the pipeline aborts with the vstack
shape error) instead of truncating both to 2 frames, so the claim's
"whenever ... combined for segmentation, both are first truncated" and
"well-formed for every pair of frame counts" fail for Song._extract_features.
The truncating behaviour exists only in the torch pipeline. -/
theorem c8_stack_truncation_counterexample :
    extractFeaturesFile mismatchLib [] = .error .vstackShapeMismatch ∧
    vstackStrict [[(1 : ℚ), 2]] [[3, 4, 5]] = none ∧
    stackTruncated [[(1 : ℚ), 2]] [[3, 4, 5]] = [[1, 2], [3, 4]] := by decide

/-- C9: the affinity construction and its inversion cancel exactly:
1 - R_affinity = 1 - (1 - D / max D) = D / max D entrywise, so the matrix the
torch pipeline passes to agglomerative clustering is precisely the pairwise
Euclidean distance matrix of the stacked frame descriptors divided by its
maximum entry. -/
theorem c9_affinity_inversion_cancels :
    (∀ (sq : ℚ → ℚ) (pts : List (List ℚ)),
      clusterInputTorch sq pts =
        (distMatrix sq pts).map (List.map (fun d => d / matMax (distMatrix sq pts)))) ∧
    (∀ (lib : LibRoutines) (hop : ℕ) (sr : ℚ) (nMels : ℕ) (y : List ℚ),
      extractFeaturesTorch lib hop sr nMels y =
        (fitPredict 8 ((distMatrix lib.sq (torchPoints lib y)).map
            (List.map (fun d => d / matMax (distMatrix lib.sq (torchPoints lib y)))))).map
          (torchRecord lib hop sr nMels y)) := by
  have key : ∀ (sq : ℚ → ℚ) (pts : List (List ℚ)),
      clusterInputTorch sq pts =
        (distMatrix sq pts).map (List.map (fun d => d / matMax (distMatrix sq pts))) := by
    intro sq pts
    unfold clusterInputTorch affinityTorch
    rw [List.map_map]
    congr 1
    funext r
    simp only [Function.comp_apply, List.map_map]
    congr 1
    funext d
    simp only [Function.comp_apply]
    ring
  refine ⟨key, fun lib hop sr nMels y => ?_⟩
  unfold extractFeaturesTorch
  rw [key]

theorem npDiff_length : ∀ l : List ℕ, (npDiff l).length = l.length - 1
  | [] => rfl
  | [_] => rfl
  | a :: b :: t => by
    have ih := npDiff_length (b :: t)
    simp only [npDiff, List.length_cons] at ih ⊢
    omega

theorem npDiff_getD : ∀ (l : List ℕ) (i : ℕ), i + 1 < l.length →
    (npDiff l).getD i 0 = (l.getD (i + 1) 0 : ℤ) - (l.getD i 0 : ℤ)
  | [], i => fun h => absurd h (by simp)
  | [_], i => fun h => absurd h (by simp)
  | a :: b :: t, 0 => by
    intro h
    simp [npDiff]
  | a :: b :: t, i + 1 => by
    intro h
    have ih := npDiff_getD (b :: t) i (by simpa using h)
    simpa [npDiff] using ih

theorem mem_npWhere (xs : List ℤ) (i : ℕ) :
    i ∈ npWhere xs ↔ i < xs.length ∧ xs.getD i 0 ≠ 0 := by
  simp [npWhere, List.mem_filter, List.mem_range]

theorem npWhere_sorted (xs : List ℤ) : List.Pairwise (· < ·) (npWhere xs) :=
  List.Pairwise.sublist (List.filter_sublist _) (List.sorted_lt_range _)

theorem npWhere_length : ∀ xs : List ℤ, (npWhere xs).length = xs.countP (fun v => v != 0)
  | [] => rfl
  | x :: xs => by
    have ih := npWhere_length xs
    have h1 : (npWhere (x :: xs)).length
        = (List.range (x :: xs).length).countP (fun i => (x :: xs).getD i 0 != 0) :=
      (List.countP_eq_length_filter _ _).symm
    have h3 : (List.range xs.length).countP (fun i => xs.getD i 0 != 0) = (npWhere xs).length :=
      List.countP_eq_length_filter _ _
    have h2 : (List.range (x :: xs).length).countP (fun i => (x :: xs).getD i 0 != 0)
        = (List.range xs.length).countP (fun i => xs.getD i 0 != 0)
          + if x != 0 then 1 else 0 := by
      rw [List.length_cons, List.range_succ_eq_map, List.countP_cons, List.countP_map]
      rfl
    rw [h1, h2, h3, ih, List.countP_cons]

theorem countRuns_eq_boundaries : ∀ l : List ℕ, l ≠ [] →
    countRuns l = (segBoundaryFrames l).length + 1
  | [], h => absurd rfl h
  | [_], _ => by simp [countRuns, segBoundaryFrames, npDiff, npWhere]
  | a :: b :: t, _ => by
    have ih := countRuns_eq_boundaries (b :: t) (by simp)
    have hlen : (segBoundaryFrames (a :: b :: t)).length
        = (if ((b : ℤ) - (a : ℤ)) != 0 then 1 else 0) + (segBoundaryFrames (b :: t)).length := by
      unfold segBoundaryFrames
      rw [npWhere_length, npWhere_length]
      simp only [npDiff, List.countP_cons]
      exact Nat.add_comm _ _
    by_cases hab : a = b
    · subst hab
      simp only [countRuns, hlen, ih, if_pos rfl, sub_self]
      norm_num
    · have hz : ((b : ℤ) - (a : ℤ)) ≠ 0 := by
        intro h0
        exact hab (by exact_mod_cast (sub_eq_zero.mp h0).symm)
      simp only [countRuns, hlen, ih, if_neg hab, bne_iff_ne, ne_eq, hz, not_false_eq_true,
        if_true]
      omega

/-- C3 (amended): the boundary frames are exactly the indices i with
label[i] ≠ label[i + 1] — i.e. the frame BEFORE each label change
(np.where(np.diff(labels))[0]), not the index where label[i] ≠ label[i-1] —
converted to timestamps frame × hop / sr; the number of maximal constant
label runs (structural segments) is the number of boundaries + 1; and when
the label sequence has the full frame count 1 + samples / hop, the boundary
timestamps are strictly increasing, nonnegative, and strictly below the
duration samples / sr (timestamp 0 occurs whenever the first two labels
differ, so they need not be strictly positive). -/
theorem c3_segmentation_amended (hop : ℕ) (sr : ℚ) (samples : ℕ) (l : List ℕ)
    (hhop : 0 < hop) (hsr : 0 < sr) (hlen : l.length = 1 + samples / hop) :
    (∀ i : ℕ, i ∈ segBoundaryFrames l ↔ i + 1 < l.length ∧ l.getD i 0 ≠ l.getD (i + 1) 0) ∧
    List.Pairwise (· < ·) (framesToTime hop sr (segBoundaryFrames l)) ∧
    (∀ t ∈ framesToTime hop sr (segBoundaryFrames l), 0 ≤ t ∧ t < (samples : ℚ) / sr) ∧
    (l ≠ [] → countRuns l = (segBoundaryFrames l).length + 1) := by
  have hmem : ∀ i : ℕ, i ∈ segBoundaryFrames l ↔
      i + 1 < l.length ∧ l.getD i 0 ≠ l.getD (i + 1) 0 := by
    intro i
    unfold segBoundaryFrames
    rw [mem_npWhere]
    have hdl := npDiff_length l
    constructor
    · rintro ⟨hi, hne⟩
      have hi' : i + 1 < l.length := by omega
      refine ⟨hi', ?_⟩
      rw [npDiff_getD l i hi'] at hne
      intro he
      apply hne
      rw [he, sub_self]
    · rintro ⟨hi, hne⟩
      refine ⟨by omega, ?_⟩
      rw [npDiff_getD l i hi]
      intro h0
      apply hne
      have hcast : (l.getD i 0 : ℤ) = (l.getD (i + 1) 0 : ℤ) := by omega
      exact_mod_cast hcast
  have hhopQ : (0 : ℚ) < (hop : ℚ) := by exact_mod_cast hhop
  have hmono : ∀ i j : ℕ, i < j → (i : ℚ) * (hop : ℚ) / sr < (j : ℚ) * (hop : ℚ) / sr := by
    intro i j hij
    apply (div_lt_div_right hsr).mpr
    have : (i : ℚ) < (j : ℚ) := by exact_mod_cast hij
    exact mul_lt_mul_of_pos_right this hhopQ
  have htimes : List.Pairwise (· < ·) (framesToTime hop sr (segBoundaryFrames l)) :=
    List.Pairwise.map _ (fun {a b} hab => hmono a b hab) (npWhere_sorted (npDiff l))
  have hbound : ∀ t ∈ framesToTime hop sr (segBoundaryFrames l),
      0 ≤ t ∧ t < (samples : ℚ) / sr := by
    intro t ht
    simp only [framesToTime, List.mem_map] at ht
    obtain ⟨i, hi, rfl⟩ := ht
    refine ⟨div_nonneg (mul_nonneg (Nat.cast_nonneg i) (Nat.cast_nonneg hop)) hsr.le, ?_⟩
    apply (div_lt_div_right hsr).mpr
    have hi2 : i + 1 < l.length := ((hmem i).mp hi).1
    have h1 : i + 1 ≤ samples / hop := by omega
    have hsum : i * hop + hop ≤ samples := by
      calc i * hop + hop = (i + 1) * hop := by ring
        _ ≤ (samples / hop) * hop := Nat.mul_le_mul_right hop h1
        _ ≤ samples := Nat.div_mul_le_self samples hop
    have hnat : i * hop < samples := lt_of_lt_of_le (Nat.lt_add_of_pos_right hhop) hsum
    have hq : ((i * hop : ℕ) : ℚ) < (samples : ℚ) := by exact_mod_cast hnat
    calc (i : ℚ) * (hop : ℚ) = ((i * hop : ℕ) : ℚ) := by push_cast; ring
      _ < (samples : ℚ) := hq
  exact ⟨hmem, htimes, hbound, fun hne => countRuns_eq_boundaries l hne⟩

/-- Witness for C3's amended theorem: labels [0, 0, 1, 1] over 1536 samples
at hop 512 and sample rate 22050 (frame count 4 = 1 + 1536 / 512). -/
theorem c3_segmentation_amended_witness :
    (∀ i : ℕ, i ∈ segBoundaryFrames [0, 0, 1, 1] ↔
      i + 1 < [0, 0, 1, 1].length ∧
      [0, 0, 1, 1].getD i 0 ≠ [0, 0, 1, 1].getD (i + 1) 0) ∧
    List.Pairwise (· < ·) (framesToTime 512 22050 (segBoundaryFrames [0, 0, 1, 1])) ∧
    (∀ t ∈ framesToTime 512 22050 (segBoundaryFrames [0, 0, 1, 1]),
      0 ≤ t ∧ t < ((1536 : ℕ) : ℚ) / 22050) ∧
    ([0, 0, 1, 1] ≠ [] → countRuns [0, 0, 1, 1] = (segBoundaryFrames [0, 0, 1, 1]).length + 1) :=
  c3_segmentation_amended 512 22050 1536 [0, 0, 1, 1] (by norm_num) (by norm_num) (by norm_num)

/-- C3 counterexample: for the label sequence [0, 1] the code derives the
boundary list np.where(np.diff([0, 1]))[0] = [0] — the frame BEFORE the label
change — whereas the claim places a boundary at every index i with
label[i] ≠ label[i-1], which here is index 1; and the code's boundary
timestamp is frames_to_time(0) = 0, which does not lie strictly inside
(0, duration) for any duration. -/
theorem c3_segmentation_counterexample :
    segBoundaryFrames [0, 1] = [0] ∧ 1 ∉ segBoundaryFrames [0, 1] ∧
    framesToTime 512 22050 (segBoundaryFrames [0, 1]) = [0] ∧ ¬ (0 : ℚ) < 0 := by
  have h1 : segBoundaryFrames [0, 1] = [0] := by decide
  refine ⟨h1, by decide, ?_, by norm_num⟩
  rw [h1]
  norm_num [framesToTime]

theorem melLogStep_pos : 0 < melLogStep :=
  div_pos (Real.log_pos (by norm_num)) (by norm_num)

theorem hzToMel_zero : hzToMel 0 = 0 := by
  simp only [hzToMel]
  rw [if_neg (by norm_num)]
  norm_num

theorem hzToMel_11025_eq : hzToMel 11025 = 15 + Real.log (11025 / 1000) / melLogStep := by
  simp only [hzToMel]
  rw [if_pos (by norm_num)]

theorem hzToMel_11025_ge : 15 ≤ hzToMel 11025 := by
  rw [hzToMel_11025_eq]
  have h1 : 0 ≤ Real.log (11025 / 1000) := Real.log_nonneg (by norm_num)
  have h2 := div_nonneg h1 melLogStep_pos.le
  linarith

theorem melToHz_hzToMel_11025 : melToHz (hzToMel 11025) = 11025 := by
  simp only [melToHz]
  rw [if_pos hzToMel_11025_ge, hzToMel_11025_eq, add_sub_cancel_left,
      mul_comm melLogStep (Real.log (11025 / 1000) / melLogStep),
      div_mul_cancel₀ _ melLogStep_pos.ne', Real.exp_log (by norm_num)]
  norm_num

theorem melToHz_mono {m1 m2 : ℝ} (h : m1 ≤ m2) : melToHz m1 ≤ melToHz m2 := by
  simp only [melToHz]
  split_ifs with h1 h2 h2
  · have hsub : m1 - 15 ≤ m2 - 15 := by linarith
    have hexp := Real.exp_le_exp.mpr (mul_le_mul_of_nonneg_left hsub melLogStep_pos.le)
    linarith
  · exact (h2 (le_trans h1 h)).elim
  · push_neg at h1
    have ha : (200 / 3 : ℝ) * m1 ≤ 1000 := by nlinarith
    have hb : (1 : ℝ) ≤ Real.exp (melLogStep * (m2 - 15)) := by
      rw [← Real.exp_zero]
      exact Real.exp_le_exp.mpr (mul_nonneg melLogStep_pos.le (by linarith))
    nlinarith
  · linarith

theorem linspace_getLast (lo hi : ℝ) (m : ℕ) :
    (linspace lo hi (m + 2)).getLast? = some hi := by
  unfold linspace
  rw [List.range_succ (n := m + 1), List.map_append]
  simp only [List.map_cons, List.map_nil]
  rw [List.getLast?_concat]
  congr 1
  push_cast
  have hne : (m : ℝ) + 1 ≠ 0 := by positivity
  rw [show ((m : ℝ) + 2 - 1) = (m : ℝ) + 1 from by ring]
  field_simp

theorem linspace_le_hi (lo hi : ℝ) (n : ℕ) (hlohi : lo ≤ hi) :
    ∀ x ∈ linspace lo hi n, x ≤ hi := by
  intro x hx
  unfold linspace at hx
  obtain ⟨i, hi_mem, rfl⟩ := List.mem_map.mp hx
  rw [List.mem_range] at hi_mem
  cases n with
  | zero => exact absurd hi_mem (by omega)
  | succ k =>
    cases k with
    | zero =>
      have hi0 : i = 0 := by omega
      subst hi0
      simp
      linarith
    | succ j =>
      have hd : (0 : ℝ) < ((j : ℝ) + 1 + 1) - 1 := by
        have := Nat.cast_nonneg (α := ℝ) j
        linarith
      have hiR : (i : ℝ) ≤ ((j : ℝ) + 1 + 1) - 1 := by
        have hle : (i : ℝ) ≤ (j : ℝ) + 1 := by exact_mod_cast Nat.lt_succ_iff.mp hi_mem
        linarith
      have hfrac : (hi - lo) * (i : ℝ) / (((j : ℝ) + 1 + 1) - 1) ≤ hi - lo := by
        rw [div_le_iff hd]
        have := mul_le_mul_of_nonneg_left hiR (by linarith : (0 : ℝ) ≤ hi - lo)
        linarith [this]
      push_cast
      push_cast at hfrac
      linarith

/-- C10: the file-based extractor loads every input at the fixed sample rate
22050 (librosa.load(file_path, sr=22050)), so its mel table is built with
fmax = sr / 2 = 11025 Hz (the Nyquist frequency): the mel frequency table's
last (largest) entry is exactly 11025 Hz, every entry is at most 11025 Hz,
and 11025 Hz lies strictly below the configured treble band's 20000 Hz upper
bound. -/
theorem c10_sample_rate_nyquist :
    fileSampleRate = 22050 ∧ fileSampleRate / 2 = 11025 ∧ (11025 : ℝ) < 20000 ∧
    ∀ n : ℕ, 2 ≤ n →
      (melFrequencies n 0 11025).getLast? = some 11025 ∧
      ∀ f ∈ melFrequencies n 0 11025, f ≤ 11025 := by
  refine ⟨rfl, by norm_num [fileSampleRate], by norm_num, ?_⟩
  intro n hn
  constructor
  · obtain ⟨m, rfl⟩ : ∃ m, n = m + 2 := ⟨n - 2, by omega⟩
    unfold melFrequencies
    rw [List.getLast?_map, linspace_getLast]
    simp [melToHz_hzToMel_11025]
  · intro f hf
    unfold melFrequencies at hf
    obtain ⟨mel, hmel, rfl⟩ := List.mem_map.mp hf
    have h0 : hzToMel 0 ≤ hzToMel 11025 := by
      rw [hzToMel_zero]
      linarith [hzToMel_11025_ge]
    have hle := linspace_le_hi (hzToMel 0) (hzToMel 11025) n h0 mel hmel
    calc melToHz mel ≤ melToHz (hzToMel 11025) := melToHz_mono hle
      _ = 11025 := melToHz_hzToMel_11025

/-- Witness for C10 at the default mel-band count n_mels = 128. -/
theorem c10_sample_rate_nyquist_witness :
    (melFrequencies 128 0 11025).getLast? = some 11025 ∧
    ∀ f ∈ melFrequencies 128 0 11025, f ≤ 11025 :=
  c10_sample_rate_nyquist.2.2.2 128 (by norm_num)

end Soundbits
